import Mathlib

/-!
Verification of the UBTool interactive terminal-session manager
(`terminal_manager.py`) against its natural-language specification.

The Python code is shallowly embedded: pure string processing becomes
functions on `List Char` / `String`, stateful objects become explicit
state records with operations as state-passing functions, and the
background pump's loop iterations become explicit step operations.
-/

/-! ## Escape sanitizer (`TerminalSession._clean_ansi_codes`)

The ANSI regex in the source (`ANSI_ESCAPE_PATTERN`) matches an ESC
followed either by a single byte in `0x40-0x5A` or `0x5C-0x5F`, or by
`[`, a run of parameter bytes `0x30-0x3F`, a run of intermediate bytes
`0x20-0x2F`, and a final byte `0x40-0x7E`.  The three classes of the bracketed
alternative are pairwise disjoint, so the regex engine's greedy
matching with backtracking coincides with maximal-munch scanning. -/

def isAnsiSingle (c : Char) : Bool :=
  (0x40 ≤ c.toNat && c.toNat ≤ 0x5A) || (0x5C ≤ c.toNat && c.toNat ≤ 0x5F)

def isAnsiParam (c : Char) : Bool :=
  0x30 ≤ c.toNat && c.toNat ≤ 0x3F

def isAnsiInter (c : Char) : Bool :=
  0x20 ≤ c.toNat && c.toNat ≤ 0x2F

def isAnsiFinal (c : Char) : Bool :=
  0x40 ≤ c.toNat && c.toNat ≤ 0x7E

/-- Length of the escape sequence following an ESC, if any. -/
def ansiMatchTail : List Char → Option Nat
  | [] => none
  | d :: rest2 =>
    if isAnsiSingle d then some 2
    else if d = '[' then
      let p := (rest2.takeWhile isAnsiParam).length
      let afterParams := rest2.drop p
      let i := (afterParams.takeWhile isAnsiInter).length
      match afterParams.drop i with
      | f :: _ => if isAnsiFinal f then some (p + i + 3) else none
      | [] => none
    else none

/-- Length of the ANSI escape sequence starting at the head of the
list, if any (`ANSI_ESCAPE_PATTERN` can only match at an ESC). -/
def ansiMatch : List Char → Option Nat
  | [] => none
  | c :: rest => if c = '\x1b' then ansiMatchTail rest else none

/-- One left-to-right pass of `re.sub(ANSI_ESCAPE_PATTERN, '', text)`:
delete each non-overlapping leftmost match.  Fueled by the length of
the list so the recursion is structural. -/
def ansiSubAux : Nat → List Char → List Char
  | 0, s => s
  | _ + 1, [] => []
  | fuel + 1, c :: rest =>
    match ansiMatch (c :: rest) with
    | some n => ansiSubAux fuel ((c :: rest).drop n)
    | none => c :: ansiSubAux fuel rest

def ansiSub (s : List Char) : List Char :=
  ansiSubAux s.length s

/-- `str.replace(pat, '')`: delete every non-overlapping occurrence of
`pat`, scanning left to right.  Fueled by the length of the list. -/
def replaceAllAux (pat : List Char) : Nat → List Char → List Char
  | 0, s => s
  | _ + 1, [] => []
  | fuel + 1, c :: rest =>
    if !pat.isEmpty && pat.isPrefixOf (c :: rest) then
      replaceAllAux pat fuel ((c :: rest).drop pat.length)
    else
      c :: replaceAllAux pat fuel rest

def replaceAll (pat s : List Char) : List Char :=
  replaceAllAux pat s.length s

/-- The `problematic_sequences` list from the source, in order
(duplicates included, as in the code). -/
def problematic_sequences : List String :=
  ["\x1b]0;", "\x07", "\x1b[?2004h", "\x1b[?2004l",
   "\x1b[01;32m", "\x1b[01;34m", "\x1b[00m", "\x1b[0m",
   "\x1b[34m", "\x1b[32m", "\x1b[31m", "\x1b[33m",
   "\x1b[35m", "\x1b[36m", "\x1b[01;31m", "\x1b[01;33m",
   "\x1b[01;35m", "\x1b[01;36m", "\x1b[01;34m", "\x1b[01;32m",
   "\x1b[m", "\x1b[K", "\x1b[H", "\x1b[2J", "\x1b[J", "\x1b[0G"]

/-- Characters removed by `re.sub(r'[\x00-\x08\x0B\x0C\x0E-\x1F\x7F]', '', _)`. -/
def isRemovedCtl (c : Char) : Bool :=
  (c.toNat ≤ 0x08) || (c.toNat = 0x0B) || (c.toNat = 0x0C) ||
  (0x0E ≤ c.toNat && c.toNat ≤ 0x1F) || (c.toNat = 0x7F)

/-- Python `str.isspace` / the whitespace set stripped by
`str.strip()` with no arguments (`Py_UNICODE_ISSPACE`). -/
def pyIsSpace (c : Char) : Bool :=
  (0x09 ≤ c.toNat && c.toNat ≤ 0x0D) ||
  (0x1C ≤ c.toNat && c.toNat ≤ 0x20) ||
  (c.toNat = 0x85) || (c.toNat = 0xA0) || (c.toNat = 0x1680) ||
  (0x2000 ≤ c.toNat && c.toNat ≤ 0x200A) ||
  (c.toNat = 0x2028) || (c.toNat = 0x2029) ||
  (c.toNat = 0x202F) || (c.toNat = 0x205F) || (c.toNat = 0x3000)

/-- Python `str.strip()`: drop whitespace from both ends. -/
def pyStrip (l : List Char) : List Char :=
  ((l.dropWhile pyIsSpace).reverse.dropWhile pyIsSpace).reverse

/-- `re.sub(r' +', ' ', line)`: collapse each maximal run of space
characters (0x20 only) to a single space.  Fueled by the length. -/
def collapseSpacesAux : Nat → List Char → List Char
  | 0, l => l
  | _ + 1, [] => []
  | fuel + 1, c :: rest =>
    if c = ' ' then ' ' :: collapseSpacesAux fuel (rest.dropWhile (fun d => d == ' '))
    else c :: collapseSpacesAux fuel rest

def collapseSpaces (l : List Char) : List Char :=
  collapseSpacesAux l.length l

/-- Python `text.split('\n')`. -/
def splitNl : List Char → List (List Char)
  | [] => [[]]
  | c :: rest =>
    match splitNl rest with
    | [] => if c = '\n' then [[], []] else [[c]]
    | l :: ls => if c = '\n' then [] :: l :: ls else (c :: l) :: ls

/-- Python `'\n'.join(lines)`. -/
def joinNl : List (List Char) → List Char
  | [] => []
  | [l] => l
  | l :: ls => l ++ '\n' :: joinNl ls

/-- `TerminalSession._clean_ansi_codes`: (1) delete ANSI escape
sequences, (2) delete the fixed problematic sequences, (3) delete the
remaining control characters `[\x00-\x08\x0B\x0C\x0E-\x1F\x7F]`,
(4) split on newlines, strip each line and collapse space runs,
rejoin with newlines. -/
def clean_ansi_codes (text : String) : String :=
  let step1 := ansiSub text.data
  let step2 := problematic_sequences.foldl (fun acc seq => replaceAll seq.data acc) step1
  let step3 := step2.filter (fun c => !(isRemovedCtl c))
  String.mk (joinNl ((splitNl step3).map (fun l => collapseSpaces (pyStrip l))))

/-! ## Session (`TerminalSession`)

State of one session: the fields of `TerminalSession` that the claims
are about.  The pty process handle is abstracted to the boolean
`hasProcess` (`self.process is not None`); callbacks are modelled by
the list of registered callback ids, and an operation reports the
chunks it delivers to callbacks as a list of (callback id, chunk)
events. -/

structure SessionState where
  session_id : String
  device_id : String
  active : Bool
  hasProcess : Bool
  output_buffer : List String
  callbacks : List String
deriving DecidableEq

/-- `TerminalSession.__init__`. -/
def initSession (sid dev : String) : SessionState :=
  { session_id := sid, device_id := dev, active := false,
    hasProcess := false, output_buffer := [], callbacks := [] }

/-- Python `data.endswith('\n')`. -/
def pyEndsWithNl (s : String) : Bool :=
  s.data.getLast? == some '\n'

/-- Number of trailing newline characters of a string. -/
def trailingNl (s : String) : Nat :=
  (s.data.reverse.takeWhile (fun c => c == '\n')).length

namespace TerminalSession

/-- `start()`: spawn the shell (success indicated by `spawnOk`); on
success the process handle is set and `active` becomes true, on
failure (exception from `spawn`) the state is unchanged and `False`
is returned. -/
def start (s : SessionState) (spawnOk : Bool) : Bool × SessionState :=
  if spawnOk then (true, { s with hasProcess := true, active := true })
  else (false, s)

/-- `write_input(data)`: requires a process and `active`; appends a
newline if `data` does not already end in one, then writes.  The
middle component is the data actually written to the process
(`none` when nothing is written). -/
def write_input (s : SessionState) (data : String) :
    Bool × Option String × SessionState :=
  if s.hasProcess && s.active then
    let written := if pyEndsWithNl data then data else data ++ "\n"
    (true, some written, s)
  else (false, none, s)

/-- `resize(rows, cols)`: requires a process and `active`; the window
size is not part of the modelled state. -/
def resize (s : SessionState) (_rows _cols : Nat) : Bool × SessionState :=
  if s.hasProcess && s.active then (true, s) else (false, s)

/-- `close()`: set `active` to false, terminate and drop the process. -/
def close (s : SessionState) : SessionState :=
  { s with active := false, hasProcess := false }

/-- `_handle_output(output)`: sanitize, append to the buffer, notify
every registered callback with the sanitized chunk. -/
def handle_output (s : SessionState) (output : String) :
    List (String × String) × SessionState :=
  let cleanOutput := clean_ansi_codes output
  (s.callbacks.map (fun cb => (cb, cleanOutput)),
   { s with output_buffer := s.output_buffer ++ [cleanOutput] })

/-- One iteration of `_monitor_output` in which the read returned
`chunk`: the loop body runs only while `active` and a process exist,
and the chunk is handled only if `output and output.strip()` is
truthy (non-empty and containing a non-whitespace character). -/
def pump_read (s : SessionState) (chunk : String) :
    List (String × String) × SessionState :=
  if s.active && s.hasProcess then
    if !chunk.data.isEmpty && !(pyStrip chunk.data).isEmpty then
      handle_output s chunk
    else ([], s)
  else ([], s)

/-- One iteration of `_monitor_output` in which the read raised
`PtyProcessError`/`EOFError`: the termination marker is handled and
the loop exits, after which `active` is set to false. -/
def pump_eof (s : SessionState) : List (String × String) × SessionState :=
  if s.active && s.hasProcess then
    let (evs, s1) := handle_output s "\r\n[Proceso terminado]\r\n"
    (evs, { s1 with active := false })
  else ([], s)

/-- One iteration of `_monitor_output` in which `isalive()` was false:
`active` is set to false, the connection-closed marker is handled and
the loop exits. -/
def pump_dead (s : SessionState) : List (String × String) × SessionState :=
  if s.active && s.hasProcess then
    let (evs, s1) := handle_output { s with active := false } "\r\n[Conexión cerrada]\r\n"
    (evs, s1)
  else ([], s)

/-- `add_callback(id, fn)`. -/
def add_callback (s : SessionState) (cb : String) : SessionState :=
  { s with callbacks := s.callbacks ++ [cb] }

/-- `clear_buffer()`. -/
def clear_buffer (s : SessionState) : SessionState :=
  { s with output_buffer := [] }

end TerminalSession

/-- The operations that can act on a session after construction. -/
inductive SessionOp where
  | start (spawnOk : Bool)
  | write (data : String)
  | resize (rows cols : Nat)
  | close
  | pumpRead (chunk : String)
  | pumpEOF
  | pumpDead
deriving DecidableEq

/-- Effect of one operation on the session state. -/
def sessionStep (s : SessionState) (op : SessionOp) : SessionState :=
  match op with
  | .start ok => (TerminalSession.start s ok).2
  | .write data => (TerminalSession.write_input s data).2.2
  | .resize r c => (TerminalSession.resize s r c).2
  | .close => TerminalSession.close s
  | .pumpRead ch => (TerminalSession.pump_read s ch).2
  | .pumpEOF => (TerminalSession.pump_eof s).2
  | .pumpDead => (TerminalSession.pump_dead s).2

/-- Run a sequence of operations. -/
def runOps (s : SessionState) (ops : List SessionOp) : SessionState :=
  ops.foldl sessionStep s

/-! ## Session registry (`TerminalManager`)

Session ids are rendered with decimal notation as in the f-string
`f"session_{self.session_counter}_{int(time.time())}"`. -/

/-- Decimal digits of `n`, most significant first; fueled so the
recursion is structural. -/
def natReprAux : Nat → Nat → List Char
  | 0, _ => []
  | fuel + 1, n =>
    if n < 10 then [Nat.digitChar n]
    else natReprAux fuel (n / 10) ++ [Nat.digitChar (n % 10)]

/-- Decimal representation of a natural number (Python `str(n)`). -/
def natRepr (n : Nat) : List Char :=
  natReprAux (n + 1) n

/-- `f"session_{counter}_{timestamp}"`. -/
def sessionId (counter timestamp : Nat) : String :=
  String.mk ("session_".data ++ natRepr counter ++ '_' :: natRepr timestamp)

/-- Decimal parser used only in proofs, to invert `natRepr`. -/
def parseNat (l : List Char) : Nat :=
  l.foldl (fun acc c => acc * 10 + (c.toNat - 48)) 0

structure ManagerState where
  sessions : List (String × SessionState)
  session_counter : Nat
deriving DecidableEq

/-- Inputs and environment of one `create_session` call: availability
of the adb locator, the ids of the listed devices, the optional
`device_id` argument, the creation timestamp, and whether the pty
spawn succeeds. -/
structure CreateEnv where
  adbAvailable : Bool
  devices : List String
  deviceArg : Option String
  timestamp : Nat
  spawnOk : Bool

/-- Python dict assignment `d[k] = v`: replace the value if the key is
present, else append the new binding. -/
def dictInsert (k : String) (v : SessionState)
    (l : List (String × SessionState)) : List (String × SessionState) :=
  if l.any (fun p => p.1 == k) then
    l.map (fun p => if p.1 == k then (k, v) else p)
  else l ++ [(k, v)]

/-- Device resolution in `create_session`: a falsy `device_id`
argument (absent or empty string) is replaced by the first listed
device, if any. -/
def resolveDevice (e : CreateEnv) : Option String :=
  match e.deviceArg with
  | some d => if d = "" then e.devices.head? else some d
  | none => e.devices.head?

/-- `TerminalManager.create_session`: fail if the locator is
unavailable or no device can be resolved; otherwise increment the
counter, build the id, construct and start a session, and register it
only when `start()` succeeded. -/
def create_session (m : ManagerState) (e : CreateEnv) :
    Option String × ManagerState :=
  if !e.adbAvailable then (none, m)
  else
    match resolveDevice e with
    | none => (none, m)
    | some dev =>
      let counter := m.session_counter + 1
      let sid := sessionId counter e.timestamp
      let (ok, sess) := TerminalSession.start (initSession sid dev) e.spawnOk
      if ok then
        (some sid, { sessions := dictInsert sid sess m.sessions,
                     session_counter := counter })
      else
        (none, { m with session_counter := counter })

/-- `TerminalManager.get_session`. -/
def get_session (m : ManagerState) (sid : String) : Option SessionState :=
  (m.sessions.find? (fun p => p.1 == sid)).map (fun p => p.2)

/-- `TerminalManager.close_session`: close and remove the entry if
present, no-op otherwise. -/
def close_session (m : ManagerState) (sid : String) : ManagerState :=
  match get_session m sid with
  | none => m
  | some _ => { m with sessions := m.sessions.filter (fun p => p.1 != sid) }

/-- Summary record produced by `get_active_sessions`. -/
structure SessionSummary where
  id : String
  device_id : String
  active : Bool
  buffer_length : Nat
deriving DecidableEq

/-- `TerminalManager.get_active_sessions` (`list_active`): the entries
whose session is active, keyed by session id. -/
def get_active_sessions (m : ManagerState) : List (String × SessionSummary) :=
  m.sessions.filterMap (fun p =>
    if p.2.active then
      some (p.1, { id := p.1, device_id := p.2.device_id,
                   active := p.2.active,
                   buffer_length := p.2.output_buffer.length })
    else none)

/-- Run a sequence of `create_session` calls, returning the list of
results. -/
def runCreates : ManagerState → List CreateEnv → List (Option String)
  | _, [] => []
  | m, e :: es =>
    let r := create_session m e
    r.1 :: runCreates r.2 es

/-- A running session with one registered callback, used to
instantiate theorems at concrete states. -/
def sampleActiveSession : SessionState :=
  { session_id := "s1", device_id := "d1", active := true,
    hasProcess := true, output_buffer := [], callbacks := ["cb"] }

/-- A fresh registry, used to instantiate theorems. -/
def emptyManager : ManagerState :=
  { sessions := [], session_counter := 0 }

/-- A `create_session` environment in which the locator is available
but lists no device. -/
def noDeviceEnv : CreateEnv :=
  { adbAvailable := true, devices := [], deviceArg := none,
    timestamp := 0, spawnOk := true }

/-- A `create_session` environment in which everything succeeds. -/
def okEnv : CreateEnv :=
  { adbAvailable := true, devices := ["emulator-5554"], deviceArg := none,
    timestamp := 7, spawnOk := true }

/-! ## Helper lemmas -/

theorem mem_of_mem_dropWhile {p : Char → Bool} {c : Char} :
    ∀ {l : List Char}, c ∈ l.dropWhile p → c ∈ l := by
  intro l h
  exact (List.dropWhile_sublist p).mem h

theorem mem_of_mem_pyStrip {c : Char} {l : List Char} (h : c ∈ pyStrip l) : c ∈ l := by
  unfold pyStrip at h
  rw [List.mem_reverse] at h
  have h2 := mem_of_mem_dropWhile h
  rw [List.mem_reverse] at h2
  exact mem_of_mem_dropWhile h2

theorem mem_of_mem_collapseSpacesAux {c : Char} :
    ∀ (fuel : Nat) (l : List Char), c ∈ collapseSpacesAux fuel l → c ∈ l := by
  intro fuel
  induction fuel with
  | zero => intro l h; exact h
  | succ f ih =>
    intro l h
    cases l with
    | nil => exact h
    | cons x rest =>
      by_cases hx : x = ' '
      · rw [collapseSpacesAux, if_pos hx] at h
        rcases List.mem_cons.mp h with h1 | h1
        · simp [h1, hx]
        · exact List.mem_cons_of_mem x
            (mem_of_mem_dropWhile (ih _ h1))
      · rw [collapseSpacesAux, if_neg hx] at h
        rcases List.mem_cons.mp h with h1 | h1
        · simp [h1]
        · exact List.mem_cons_of_mem x (ih _ h1)

theorem mem_of_mem_collapseSpaces {c : Char} {l : List Char}
    (h : c ∈ collapseSpaces l) : c ∈ l :=
  mem_of_mem_collapseSpacesAux l.length l h

theorem mem_of_mem_joinNl {c : Char} :
    ∀ {L : List (List Char)}, c ∈ joinNl L → c = '\n' ∨ ∃ l ∈ L, c ∈ l := by
  intro L
  induction L with
  | nil => intro h; exact absurd h (List.not_mem_nil c)
  | cons l ls ih =>
    intro h
    cases ls with
    | nil =>
      right
      exact ⟨l, List.mem_cons_self _ _, h⟩
    | cons l2 ls2 =>
      have h : c ∈ l ++ '\n' :: joinNl (l2 :: ls2) := h
      rcases List.mem_append.mp h with h1 | h1
      · exact Or.inr ⟨l, List.mem_cons_self _ _, h1⟩
      · rcases List.mem_cons.mp h1 with h2 | h2
        · exact Or.inl h2
        · rcases ih h2 with h3 | ⟨l3, hl3, hc3⟩
          · exact Or.inl h3
          · exact Or.inr ⟨l3, List.mem_cons_of_mem _ hl3, hc3⟩

theorem mem_of_mem_splitNl {c : Char} :
    ∀ (m : List Char) (l : List Char), l ∈ splitNl m → c ∈ l → c ∈ m := by
  intro m
  induction m with
  | nil =>
    intro l hl hc
    rw [splitNl] at hl
    rcases List.mem_cons.mp hl with h | h
    · subst h; exact absurd hc (List.not_mem_nil c)
    · exact absurd h (List.not_mem_nil l)
  | cons x rest ih =>
    intro l hl hc
    rw [splitNl] at hl
    cases hsp : splitNl rest with
    | nil =>
      rw [hsp] at hl
      have hl : l ∈ (if x = '\n' then [[], []] else [[x]]) := hl
      by_cases hx : x = '\n'
      · rw [if_pos hx] at hl
        rcases List.mem_cons.mp hl with h | h
        · subst h; exact absurd hc (List.not_mem_nil c)
        · rcases List.mem_cons.mp h with h1 | h1
          · subst h1; exact absurd hc (List.not_mem_nil c)
          · exact absurd h1 (List.not_mem_nil l)
      · rw [if_neg hx] at hl
        rcases List.mem_cons.mp hl with h | h
        · subst h
          rcases List.mem_cons.mp hc with h1 | h1
          · simp [h1]
          · exact absurd h1 (List.not_mem_nil c)
        · exact absurd h (List.not_mem_nil l)
    | cons L Ls =>
      rw [hsp] at hl
      have hl : l ∈ (if x = '\n' then [] :: L :: Ls else (x :: L) :: Ls) := hl
      by_cases hx : x = '\n'
      · rw [if_pos hx] at hl
        rcases List.mem_cons.mp hl with h | h
        · subst h; exact absurd hc (List.not_mem_nil c)
        · have : l ∈ splitNl rest := by rw [hsp]; exact h
          exact List.mem_cons_of_mem x (ih l this hc)
      · rw [if_neg hx] at hl
        rcases List.mem_cons.mp hl with h | h
        · subst h
          rcases List.mem_cons.mp hc with h1 | h1
          · simp [h1]
          · have : L ∈ splitNl rest := by rw [hsp]; exact List.mem_cons_self _ _
            exact List.mem_cons_of_mem x (ih L this h1)
        · have : l ∈ splitNl rest := by rw [hsp]; exact List.mem_cons_of_mem _ h
          exact List.mem_cons_of_mem x (ih l this hc)

theorem ansiMatch_eq_none {c : Char} {rest : List Char} (h : c ≠ '\x1b') :
    ansiMatch (c :: rest) = none := by
  rw [ansiMatch, if_neg h]

theorem ansiSubAux_id :
    ∀ (fuel : Nat) (l : List Char), (∀ c ∈ l, c ≠ '\x1b') →
      ansiSubAux fuel l = l := by
  intro fuel
  induction fuel with
  | zero => intro l _; rfl
  | succ f ih =>
    intro l h
    cases l with
    | nil => rfl
    | cons c rest =>
      rw [ansiSubAux, ansiMatch_eq_none (h c (List.mem_cons_self _ _))]
      exact congrArg (c :: ·) (ih rest (fun d hd => h d (List.mem_cons_of_mem c hd)))

theorem ansiSub_id {l : List Char} (h : ∀ c ∈ l, c ≠ '\x1b') : ansiSub l = l :=
  ansiSubAux_id l.length l h

theorem isPrefixOf_head {p c : Char} {pr rest : List Char}
    (h : (p :: pr).isPrefixOf (c :: rest) = true) : p = c := by
  simp only [List.isPrefixOf, Bool.and_eq_true, beq_iff_eq] at h
  exact h.1

theorem replaceAllAux_id {p : Char} {pat : List Char} (hp : pat.head? = some p) :
    ∀ (fuel : Nat) (l : List Char), p ∉ l → replaceAllAux pat fuel l = l := by
  obtain ⟨pr, rfl⟩ : ∃ pr, pat = p :: pr := by
    cases pat with
    | nil => simp at hp
    | cons a b => simp only [List.head?] at hp; exact ⟨b, by rw [Option.some_inj] at hp; rw [hp]⟩
  intro fuel
  induction fuel with
  | zero => intro l _; rfl
  | succ f ih =>
    intro l hl
    cases l with
    | nil => rfl
    | cons c rest =>
      have hpre : (p :: pr).isPrefixOf (c :: rest) = false := by
        cases hb : (p :: pr).isPrefixOf (c :: rest) with
        | false => rfl
        | true =>
          exact absurd (isPrefixOf_head hb ▸ List.mem_cons_self c rest) hl
      rw [replaceAllAux, hpre, Bool.and_false, if_neg (by simp)]
      exact congrArg (c :: ·)
        (ih rest (fun hmem => hl (List.mem_cons_of_mem c hmem)))

theorem replaceAll_id {p : Char} {pat l : List Char}
    (hp : pat.head? = some p) (hl : p ∉ l) : replaceAll pat l = l :=
  replaceAllAux_id hp l.length l hl

theorem foldl_replaceAll_id :
    ∀ (pats : List String) (l : List Char),
      (∀ s ∈ pats, s.data.head? = some '\x1b' ∨ s.data.head? = some '\x07') →
      ('\x1b' ∉ l ∧ '\x07' ∉ l) →
      pats.foldl (fun acc seq => replaceAll seq.data acc) l = l := by
  intro pats
  induction pats with
  | nil => intro l _ _; rfl
  | cons s ps ih =>
    intro l hheads hl
    have hs : replaceAll s.data l = l := by
      rcases hheads s (List.mem_cons_self _ _) with h | h
      · exact replaceAll_id h hl.1
      · exact replaceAll_id h hl.2
    rw [List.foldl_cons, hs]
    exact ih l (fun t ht => hheads t (List.mem_cons_of_mem s ht)) hl

theorem trailingNl_pos_of_endsNl {s : String} (h : pyEndsWithNl s = true) :
    1 ≤ trailingNl s := by
  have hlast : s.data.getLast? = some '\n' := by
    simpa [pyEndsWithNl] using h
  rw [← List.head?_reverse] at hlast
  unfold trailingNl
  cases hrev : s.data.reverse with
  | nil => rw [hrev] at hlast; simp at hlast
  | cons c t =>
    rw [hrev] at hlast
    have hc : c = '\n' := by simpa using hlast
    rw [List.takeWhile_cons, if_pos (by simp [hc])]
    simp

theorem trailingNl_zero_of_not_endsNl {s : String} (h : pyEndsWithNl s = false) :
    trailingNl s = 0 := by
  have hlast : s.data.getLast? ≠ some '\n' := by
    simpa [pyEndsWithNl] using h
  rw [← List.head?_reverse] at hlast
  unfold trailingNl
  cases hrev : s.data.reverse with
  | nil => simp
  | cons c t =>
    rw [hrev] at hlast
    have hc : c ≠ '\n' := by simpa using hlast
    rw [List.takeWhile_cons, if_neg (by simp [hc])]
    simp

theorem data_append_nl (s : String) : (s ++ "\n").data = s.data ++ ['\n'] := by
  simp

theorem endsNl_append_nl (s : String) : pyEndsWithNl (s ++ "\n") = true := by
  simp [pyEndsWithNl, data_append_nl, List.getLast?_concat]

theorem trailingNl_append_nl (s : String) :
    trailingNl (s ++ "\n") = trailingNl s + 1 := by
  unfold trailingNl
  rw [data_append_nl, List.reverse_append]
  simp [List.takeWhile_cons]

/-! ## Claim theorems -/

/-- C9: the sanitizer is a total function: for every input string it
terminates and returns a string (the embedding is a total Lean
function; no cleaning step can fail, so the fallback clause of the
spec is never exercised). -/
theorem clean_ansi_codes_total : ∀ s : String, ∃ t : String, clean_ansi_codes s = t :=
  fun s => ⟨clean_ansi_codes s, rfl⟩

/-- C6: `write_input` on a session that is inactive or has no process
returns failure, writes nothing to the process, and leaves the
session state unchanged. -/
theorem write_input_inactive_no_effect :
    ∀ (s : SessionState) (data : String),
      s.active = false ∨ s.hasProcess = false →
      TerminalSession.write_input s data = (false, none, s) := by
  intro s data h
  unfold TerminalSession.write_input
  rcases h with h | h <;> simp [h]

/-- Witness for C6 at a concrete inactive session. -/
theorem write_input_inactive_no_effect_witness :
    ((initSession "s1" "d1").active = false ∨ (initSession "s1" "d1").hasProcess = false) ∧
    TerminalSession.write_input (initSession "s1" "d1") "ls" =
      (false, none, initSession "s1" "d1") :=
  ⟨Or.inl (by decide), write_input_inactive_no_effect _ _ (Or.inl (by decide))⟩

/-- C4: if the locator is unavailable, no device can be resolved, or
the spawn fails, `create_session` returns `None` and the sessions map
is unchanged. -/
theorem create_session_failure_no_registration :
    ∀ (m : ManagerState) (e : CreateEnv),
      e.adbAvailable = false ∨ resolveDevice e = none ∨ e.spawnOk = false →
      (create_session m e).1 = none ∧ (create_session m e).2.sessions = m.sessions := by
  intro m e h
  unfold create_session
  rcases h with h | h | h
  · simp [h]
  · cases hadb : e.adbAvailable
    · simp
    · simp [h]
  · cases hadb : e.adbAvailable
    · simp
    · cases hres : resolveDevice e with
      | none => simp
      | some dev => simp [TerminalSession.start, h]

/-- Witness for C4 at a concrete failing environment (no device listed). -/
theorem create_session_failure_no_registration_witness :
    (noDeviceEnv.adbAvailable = false ∨ resolveDevice noDeviceEnv = none ∨
      noDeviceEnv.spawnOk = false) ∧
    (create_session emptyManager noDeviceEnv).1 = none ∧
    (create_session emptyManager noDeviceEnv).2.sessions = emptyManager.sessions :=
  ⟨Or.inr (Or.inl (by decide)),
   create_session_failure_no_registration _ _ (Or.inr (Or.inl (by decide)))⟩

/-- C10: a chunk read by the pump that is empty or all-whitespace is
discarded: the state (in particular `output_buffer`) is unchanged and
no callback event is emitted. -/
theorem pump_discards_whitespace_chunks :
    ∀ (s : SessionState) (chunk : String),
      (chunk = "" ∨ ∀ c ∈ chunk.data, pyIsSpace c = true) →
      TerminalSession.pump_read s chunk = ([], s) := by
  intro s chunk h
  unfold TerminalSession.pump_read
  cases hg : (s.active && s.hasProcess)
  · simp
  · rcases h with h | h
    · subst h; simp
    · have hdw : chunk.data.dropWhile pyIsSpace = [] :=
        List.dropWhile_eq_nil_iff.mpr h
      simp [pyStrip, hdw]

/-- Witness for C10 at a concrete whitespace chunk and a running
session with a registered callback. -/
theorem pump_discards_whitespace_chunks_witness :
    ((" \t " : String) = "" ∨ ∀ c ∈ (" \t " : String).data, pyIsSpace c = true) ∧
    TerminalSession.pump_read sampleActiveSession " \t " = ([], sampleActiveSession) :=
  ⟨Or.inr (by decide), pump_discards_whitespace_chunks _ _ (Or.inr (by decide))⟩

/-- C5 counterexample: on input `"ls\n\n"` the data is written as-is,
so the process does not receive the data with exactly one trailing
newline. -/
theorem write_input_two_trailing_newlines :
    (TerminalSession.write_input sampleActiveSession "ls\n\n").2.1 = some "ls\n\n" ∧
    trailingNl "ls\n\n" ≠ 1 := by decide

/-- C5 amended: on an active session with a live process, a newline is
appended if and only if the data does not already end in one; the
written data always ends in a newline, and its number of trailing
newlines is `max 1` of the input's (so a trailing newline is never
duplicated, but pre-existing repeats are kept). -/
theorem write_input_appends_newline_iff_missing :
    ∀ (s : SessionState) (data : String), s.active = true → s.hasProcess = true →
      (TerminalSession.write_input s data).2.1 =
        some (if pyEndsWithNl data then data else data ++ "\n") ∧
      ∀ w, (TerminalSession.write_input s data).2.1 = some w →
        pyEndsWithNl w = true ∧ trailingNl w = max 1 (trailingNl data) := by
  intro s data ha hp
  have hw : TerminalSession.write_input s data =
      (true, some (if pyEndsWithNl data then data else data ++ "\n"), s) := by
    unfold TerminalSession.write_input
    simp [ha, hp]
  refine ⟨by rw [hw], ?_⟩
  intro w hww
  rw [hw] at hww
  have hwval : w = if pyEndsWithNl data then data else data ++ "\n" :=
    (Option.some_inj.mp hww).symm
  cases hEnd : pyEndsWithNl data
  · rw [hwval, if_neg (by simp [hEnd])]
    refine ⟨endsNl_append_nl data, ?_⟩
    rw [trailingNl_append_nl, trailingNl_zero_of_not_endsNl hEnd]
    decide
  · rw [hwval, if_pos (by simp [hEnd])]
    refine ⟨hEnd, ?_⟩
    exact (Nat.max_eq_right (trailingNl_pos_of_endsNl hEnd)).symm

/-- Witness for the amended C5 at a concrete active session and input. -/
theorem write_input_appends_newline_iff_missing_witness :
    sampleActiveSession.active = true ∧ sampleActiveSession.hasProcess = true ∧
    ((TerminalSession.write_input sampleActiveSession "ls").2.1 =
        some (if pyEndsWithNl "ls" then "ls" else "ls" ++ "\n") ∧
      ∀ w, (TerminalSession.write_input sampleActiveSession "ls").2.1 = some w →
        pyEndsWithNl w = true ∧ trailingNl w = max 1 (trailingNl "ls")) :=
  ⟨by decide, by decide,
   write_input_appends_newline_iff_missing sampleActiveSession "ls" (by decide) (by decide)⟩

/-- C3 counterexample: `start` after `close` makes `active` true
again, so over the full operation set the flag does return to true. -/
theorem active_returns_true_after_restart :
    (runOps (initSession "s1" "d1") [SessionOp.start true, SessionOp.close]).active = false ∧
    (runOps (initSession "s1" "d1")
      [SessionOp.start true, SessionOp.close, SessionOp.start true]).active = true := by
  decide

/-- C3 amended: once `active` is false, every operation other than a
(re-)invocation of `start` leaves it false; only calling `start`
again (which the manager never does for an existing session) can make
it true. -/
theorem active_stays_false_without_start :
    ∀ (s : SessionState) (ops : List SessionOp), s.active = false →
      (∀ b : Bool, SessionOp.start b ∉ ops) →
      (runOps s ops).active = false := by
  intro s ops
  induction ops generalizing s with
  | nil => intro h _; exact h
  | cons op rest ih =>
    intro h hns
    have hstep : (sessionStep s op).active = false := by
      cases op with
      | start b => exact absurd (List.mem_cons_self _ _) (hns b)
      | write data => simp [sessionStep, TerminalSession.write_input, h]
      | resize r c => simp [sessionStep, TerminalSession.resize, h]
      | close => rfl
      | pumpRead ch => simp [sessionStep, TerminalSession.pump_read, h]
      | pumpEOF => simp [sessionStep, TerminalSession.pump_eof, h]
      | pumpDead => simp [sessionStep, TerminalSession.pump_dead, h]
    have hrun : runOps s (op :: rest) = runOps (sessionStep s op) rest := rfl
    rw [hrun]
    exact ih _ hstep (fun b hb => hns b (List.mem_cons_of_mem _ hb))

/-- Witness for the amended C3 at a concrete closed session and a
concrete start-free operation sequence. -/
theorem active_stays_false_without_start_witness :
    (initSession "s1" "d1").active = false ∧
    (∀ b : Bool,
      SessionOp.start b ∉ [SessionOp.close, SessionOp.write "ls", SessionOp.pumpEOF]) ∧
    (runOps (initSession "s1" "d1")
      [SessionOp.close, SessionOp.write "ls", SessionOp.pumpEOF]).active = false :=
  ⟨by decide, by decide,
   active_stays_false_without_start _ _ (by decide) (by decide)⟩

/-- C1 counterexample: the input `" a"` contains no escape sequences,
no control characters, and no run of multiple spaces, yet the
sanitizer does not return it unchanged: `line.strip()` removes the
single leading space. -/
theorem clean_strips_single_leading_space :
    clean_ansi_codes " a" = "a" ∧ (" a" : String) ≠ "a" := by decide

/-- C1 amended: for every input with no control characters other than
newline (in particular no ESC and no BEL, so no escape sequence and no
problematic sequence), the sanitizer is exactly the per-line
transform: split on newlines, strip leading/trailing whitespace of
each line, collapse interior space runs to a single space, rejoin
with newlines.  Line boundaries are preserved, but leading/trailing
whitespace of each line is removed, not preserved. -/
theorem clean_ansi_codes_no_escape_chars :
    ∀ s : String, (∀ c ∈ s.data, (c.toNat < 0x20 ∨ c.toNat = 0x7F) → c = '\n') →
      clean_ansi_codes s =
        String.mk (joinNl ((splitNl s.data).map (fun l => collapseSpaces (pyStrip l)))) := by
  intro s h
  have hesc : ∀ c ∈ s.data, c ≠ '\x1b' := by
    intro c hc heq
    subst heq
    exact absurd (h _ hc (Or.inl (by decide))) (by decide)
  have hescmem : '\x1b' ∉ s.data := fun hmem => hesc _ hmem rfl
  have hbel : '\x07' ∉ s.data := by
    intro hmem
    exact absurd (h _ hmem (Or.inl (by decide))) (by decide)
  have h1 : ansiSub s.data = s.data := ansiSub_id hesc
  have h2 : problematic_sequences.foldl (fun acc seq => replaceAll seq.data acc) s.data
      = s.data :=
    foldl_replaceAll_id _ _ (by decide) ⟨hescmem, hbel⟩
  have h3 : s.data.filter (fun c => !(isRemovedCtl c)) = s.data := by
    apply List.filter_eq_self.mpr
    intro c hc
    show (!(isRemovedCtl c)) = true
    cases hb : isRemovedCtl c
    · rfl
    · exfalso
      have hlt : c.toNat < 0x20 ∨ c.toNat = 0x7F := by
        simp only [isRemovedCtl, Bool.or_eq_true, Bool.and_eq_true,
          decide_eq_true_eq] at hb
        omega
      have hnl := h c hc hlt
      subst hnl
      exact absurd hb (by decide)
  simp only [clean_ansi_codes]
  rw [h1, h2, h3]

/-- Witness for the amended C1 at a concrete escape-free input. -/
theorem clean_ansi_codes_no_escape_chars_witness :
    (∀ c ∈ ("a  b\nc" : String).data, (c.toNat < 0x20 ∨ c.toNat = 0x7F) → c = '\n') ∧
    clean_ansi_codes "a  b\nc" =
      String.mk (joinNl ((splitNl ("a  b\nc" : String).data).map
        (fun l => collapseSpaces (pyStrip l)))) :=
  ⟨by decide, clean_ansi_codes_no_escape_chars _ (by decide)⟩

/-- C2 counterexample: an interior carriage return (C0 control
character `0x0D`, neither newline nor tab) survives the sanitizer:
the control-character class in the code omits `\x0D`. -/
theorem clean_keeps_interior_carriage_return :
    clean_ansi_codes "a\rb" = "a\rb" ∧ '\r' ∈ (clean_ansi_codes "a\rb").data ∧
    '\r'.toNat < 0x20 ∧ '\r' ≠ '\n' ∧ '\r' ≠ '\t' := by decide

/-- Any C0 character below 0x20 surviving the post-filter stages of
the sanitizer pipeline is tab, newline, or carriage return. -/
theorem filtered_pipeline_chars {c : Char} {m : List Char}
    (hc : c ∈ joinNl ((splitNl (m.filter (fun c => !(isRemovedCtl c)))).map
      (fun l => collapseSpaces (pyStrip l))))
    (hlt : c.toNat < 0x20) :
    c.toNat = 0x09 ∨ c.toNat = 0x0A ∨ c.toNat = 0x0D := by
  rcases mem_of_mem_joinNl hc with h | ⟨l, hl, hcl⟩
  · subst h; exact Or.inr (Or.inl (by decide))
  · rcases List.mem_map.mp hl with ⟨l0, hl0, rfl⟩
    have hc0 : c ∈ l0 := mem_of_mem_pyStrip (mem_of_mem_collapseSpaces hcl)
    have hkeep := List.of_mem_filter (mem_of_mem_splitNl _ l0 hl0 hc0)
    have hfalse : isRemovedCtl c = false := by simpa using hkeep
    by_contra hcon
    push_neg at hcon
    obtain ⟨h9, h10, h13⟩ := hcon
    have htrue : isRemovedCtl c = true := by
      simp only [isRemovedCtl, Bool.or_eq_true, Bool.and_eq_true, decide_eq_true_eq]
      omega
    rw [htrue] at hfalse
    exact absurd hfalse (by decide)

/-- C2 amended: the sanitizer's output contains no C0 control
character other than newline (0x0A), tab (0x09), and carriage return
(0x0D): every other C0 character of the input is removed, while
carriage returns are removed only where `strip()` reaches them at
line boundaries. -/
theorem clean_ansi_codes_c0_only_tab_nl_cr :
    ∀ (s : String) (c : Char), c ∈ (clean_ansi_codes s).data → c.toNat < 0x20 →
      c.toNat = 0x09 ∨ c.toNat = 0x0A ∨ c.toNat = 0x0D := by
  intro s c hc hlt
  have hdata : (clean_ansi_codes s).data =
      joinNl ((splitNl ((problematic_sequences.foldl
        (fun acc seq => replaceAll seq.data acc) (ansiSub s.data)).filter
        (fun c => !(isRemovedCtl c)))).map (fun l => collapseSpaces (pyStrip l))) := by
    rw [show clean_ansi_codes s =
      String.mk (joinNl ((splitNl ((problematic_sequences.foldl
        (fun acc seq => replaceAll seq.data acc) (ansiSub s.data)).filter
        (fun c => !(isRemovedCtl c)))).map (fun l => collapseSpaces (pyStrip l)))) from by rfl]
  rw [hdata] at hc
  exact filtered_pipeline_chars hc hlt

/-- Witness for the amended C2 at a concrete input and surviving
character. -/
theorem clean_ansi_codes_c0_only_tab_nl_cr_witness :
    '\n' ∈ (clean_ansi_codes "x\ny").data ∧ '\n'.toNat < 0x20 ∧
    ('\n'.toNat = 0x09 ∨ '\n'.toNat = 0x0A ∨ '\n'.toNat = 0x0D) :=
  ⟨by decide, by decide,
   clean_ansi_codes_c0_only_tab_nl_cr "x\ny" '\n' (by decide) (by decide)⟩

theorem digitChar_toNat_sub {k : Nat} (hk : k < 10) :
    (Nat.digitChar k).toNat - 48 = k := by
  interval_cases k <;> decide

theorem digitChar_isDigit {k : Nat} (hk : k < 10) :
    (Nat.digitChar k).isDigit = true := by
  interval_cases k <;> decide

theorem natReprAux_digits :
    ∀ (f n : Nat), n < f → ∀ c ∈ natReprAux f n, c.isDigit = true := by
  intro f
  induction f with
  | zero => intro n hn; exact absurd hn (by omega)
  | succ f ih =>
    intro n hn c hc
    by_cases h10 : n < 10
    · rw [natReprAux, if_pos h10] at hc
      have : c = Nat.digitChar n := by simpa using hc
      subst this
      exact digitChar_isDigit h10
    · rw [natReprAux, if_neg h10] at hc
      rcases List.mem_append.mp hc with h | h
      · exact ih (n / 10) (by omega) c h
      · have : c = Nat.digitChar (n % 10) := by simpa using h
        subst this
        exact digitChar_isDigit (Nat.mod_lt _ (by omega))

theorem parseNat_snoc (l : List Char) (d : Char) :
    parseNat (l ++ [d]) = parseNat l * 10 + (d.toNat - 48) := by
  unfold parseNat
  rw [List.foldl_append]
  rfl

theorem parseNat_natReprAux : ∀ (f n : Nat), n < f → parseNat (natReprAux f n) = n := by
  intro f
  induction f with
  | zero => intro n hn; exact absurd hn (by omega)
  | succ f ih =>
    intro n hn
    by_cases h10 : n < 10
    · rw [natReprAux, if_pos h10]
      have : parseNat [Nat.digitChar n] = (Nat.digitChar n).toNat - 48 := by
        simp [parseNat, List.foldl]
      rw [this, digitChar_toNat_sub h10]
    · rw [natReprAux, if_neg h10, parseNat_snoc, ih (n / 10) (by omega),
        digitChar_toNat_sub (Nat.mod_lt _ (by omega))]
      omega

theorem parseNat_natRepr (n : Nat) : parseNat (natRepr n) = n :=
  parseNat_natReprAux (n + 1) n (Nat.lt_succ_self n)

theorem natRepr_inj {a b : Nat} (h : natRepr a = natRepr b) : a = b := by
  have h2 := congrArg parseNat h
  rwa [parseNat_natRepr, parseNat_natRepr] at h2

theorem natRepr_no_underscore {n : Nat} : ∀ c ∈ natRepr n, c ≠ '_' := by
  intro c hc heq
  have hd := natReprAux_digits (n + 1) n (Nat.lt_succ_self n) c hc
  subst heq
  exact absurd hd (by decide)

theorem takeWhile_append_underscore :
    ∀ (a b : List Char), (∀ c ∈ a, c ≠ '_') →
      (a ++ '_' :: b).takeWhile (fun c => c != '_') = a := by
  intro a
  induction a with
  | nil => intro b _; simp [List.takeWhile_cons]
  | cons x xs ih =>
    intro b h
    rw [List.cons_append, List.takeWhile_cons,
      if_pos (bne_iff_ne.mpr (h x (List.mem_cons_self _ _))),
      ih b (fun c hc => h c (List.mem_cons_of_mem _ hc))]

theorem sessionId_inj_counter {c1 t1 c2 t2 : Nat}
    (h : sessionId c1 t1 = sessionId c2 t2) : c1 = c2 := by
  unfold sessionId at h
  have hdata : "session_".data ++ (natRepr c1 ++ '_' :: natRepr t1) =
      "session_".data ++ (natRepr c2 ++ '_' :: natRepr t2) := by
    have h2 := congrArg String.data h
    simpa using h2
  have h2 := List.append_cancel_left hdata
  have h3 : natRepr c1 = natRepr c2 := by
    have e1 := takeWhile_append_underscore (natRepr c1) (natRepr t1) natRepr_no_underscore
    have e2 := takeWhile_append_underscore (natRepr c2) (natRepr t2) natRepr_no_underscore
    rw [← e1, ← e2, h2]
  exact natRepr_inj h3

theorem create_session_counter_mono (m : ManagerState) (e : CreateEnv) :
    m.session_counter ≤ (create_session m e).2.session_counter := by
  unfold create_session
  cases hadb : e.adbAvailable
  · simp
  · cases hres : resolveDevice e with
    | none => simp
    | some dev =>
      cases hs : e.spawnOk <;> simp [TerminalSession.start, hs]

theorem create_session_success_eq {m : ManagerState} {e : CreateEnv} {sid : String}
    (h : (create_session m e).1 = some sid) :
    sid = sessionId (m.session_counter + 1) e.timestamp ∧
    (create_session m e).2.session_counter = m.session_counter + 1 := by
  unfold create_session at h ⊢
  cases hadb : e.adbAvailable
  · simp [hadb] at h
  · cases hres : resolveDevice e with
    | none => simp [hadb, hres] at h
    | some dev =>
      cases hs : e.spawnOk
      · simp [hadb, hres, TerminalSession.start, hs] at h
      · simp only [hadb, hres, TerminalSession.start, hs] at h ⊢
        simp at h ⊢
        exact h.symm

theorem runCreates_ids_bound :
    ∀ (envs : List CreateEnv) (m : ManagerState) (sid : String),
      some sid ∈ runCreates m envs →
      ∃ c t, sid = sessionId c t ∧ m.session_counter < c := by
  intro envs
  induction envs with
  | nil => intro m sid h; exact absurd h (List.not_mem_nil _)
  | cons e es ih =>
    intro m sid h
    rw [show runCreates m (e :: es) =
      (create_session m e).1 :: runCreates (create_session m e).2 es from rfl] at h
    rcases List.mem_cons.mp h with h1 | h1
    · obtain ⟨hsid, hcnt⟩ := create_session_success_eq h1.symm
      exact ⟨m.session_counter + 1, e.timestamp, hsid, by omega⟩
    · obtain ⟨c, t, rfl, hc⟩ := ih _ _ h1
      have hmono := create_session_counter_mono m e
      exact ⟨c, t, rfl, by omega⟩

/-- C7: distinct successful `create_session` calls in one run return
pairwise-distinct session ids: the counter strictly increases on each
id-generating call and is recoverable from the id string. -/
theorem create_session_ids_pairwise_distinct :
    ∀ (m : ManagerState) (envs : List CreateEnv),
      ((runCreates m envs).filterMap (fun r => r)).Pairwise (fun a b => a ≠ b) := by
  intro m envs
  induction envs generalizing m with
  | nil => simp [runCreates]
  | cons e es ih =>
    rw [show runCreates m (e :: es) =
      (create_session m e).1 :: runCreates (create_session m e).2 es from rfl]
    cases hr : (create_session m e).1 with
    | none =>
      simpa [List.filterMap_cons] using ih (create_session m e).2
    | some sid0 =>
      simp only [List.filterMap_cons]
      refine List.Pairwise.cons ?_ (ih (create_session m e).2)
      intro x hx heq
      have hsome : some x ∈ runCreates (create_session m e).2 es := by
        rcases List.mem_filterMap.mp hx with ⟨a, ha, haeq⟩
        rwa [show a = some x from haeq] at ha
      obtain ⟨c, t, rfl, hc⟩ := runCreates_ids_bound es _ _ hsome
      obtain ⟨hsid0, hcnt⟩ := create_session_success_eq hr
      rw [hcnt] at hc
      subst hsid0
      have := sessionId_inj_counter heq
      omega

theorem mem_dictInsert_self (k : String) (v : SessionState)
    (l : List (String × SessionState)) : (k, v) ∈ dictInsert k v l := by
  unfold dictInsert
  by_cases hany : l.any (fun p => p.1 == k) = true
  · rw [if_pos hany]
    rcases List.any_eq_true.mp hany with ⟨p, hp, hpk⟩
    exact List.mem_map.mpr ⟨p, hp, by simp [hpk]⟩
  · rw [if_neg hany]
    exact List.mem_append.mpr (Or.inr (List.mem_cons_self _ _))

theorem active_keys_iff (m : ManagerState) (sid : String) :
    sid ∈ (get_active_sessions m).map Prod.fst ↔
      ∃ st, (sid, st) ∈ m.sessions ∧ st.active = true := by
  unfold get_active_sessions
  constructor
  · intro h
    rcases List.mem_map.mp h with ⟨q, hq, hfst⟩
    rcases List.mem_filterMap.mp hq with ⟨p, hp, hgp⟩
    by_cases hact : p.2.active = true
    · rw [if_pos hact] at hgp
      have hq2 : q = (p.1, ⟨p.1, p.2.device_id, p.2.active, p.2.output_buffer.length⟩) :=
        (Option.some_inj.mp hgp).symm
      subst hq2
      have hfst2 : p.1 = sid := hfst
      refine ⟨p.2, ?_, hact⟩
      rw [← hfst2]
      simpa using hp
    · rw [if_neg hact] at hgp
      exact absurd hgp (by simp)
  · rintro ⟨st, hmem, hact⟩
    apply List.mem_map.mpr
    refine ⟨(sid, (⟨sid, st.device_id, st.active, st.output_buffer.length⟩ :
      SessionSummary)), ?_, rfl⟩
    apply List.mem_filterMap.mpr
    refine ⟨(sid, st), hmem, ?_⟩
    rw [if_pos (show (sid, st).2.active = true from hact)]

theorem create_session_success_registered {m : ManagerState} {e : CreateEnv}
    {sid : String} (h : (create_session m e).1 = some sid) :
    ∃ st, (sid, st) ∈ (create_session m e).2.sessions ∧ st.active = true := by
  unfold create_session at h ⊢
  cases hadb : e.adbAvailable
  · simp [hadb] at h
  · cases hres : resolveDevice e with
    | none => simp [hadb, hres] at h
    | some dev =>
      cases hs : e.spawnOk
      · simp [hadb, hres, TerminalSession.start, hs] at h
      · simp only [hadb, hres, TerminalSession.start, hs] at h ⊢
        simp at h ⊢
        subst h
        exact ⟨_, mem_dictInsert_self _ _ _, rfl⟩

/-- C8: immediately after a successful `create_session` the returned
id is a key of `list_active`'s result; immediately after
`close_session(id)` that id is absent from `list_active` and
`get_session(id)` returns not-found. -/
theorem create_close_list_active_membership :
    (∀ (m : ManagerState) (e : CreateEnv) (sid : String),
      (create_session m e).1 = some sid →
      sid ∈ (get_active_sessions (create_session m e).2).map Prod.fst) ∧
    (∀ (m : ManagerState) (sid : String),
      sid ∉ (get_active_sessions (close_session m sid)).map Prod.fst ∧
      get_session (close_session m sid) sid = none) := by
  constructor
  · intro m e sid h
    obtain ⟨st, hmem, hact⟩ := create_session_success_registered h
    exact (active_keys_iff _ _).mpr ⟨st, hmem, hact⟩
  · intro m sid
    cases hget : get_session m sid with
    | none =>
      have hclose : close_session m sid = m := by
        unfold close_session; rw [hget]
      rw [hclose]
      refine ⟨?_, hget⟩
      intro hmem
      obtain ⟨st, hst, _⟩ := (active_keys_iff m sid).mp hmem
      have hfind : m.sessions.find? (fun p => p.1 == sid) = none := by
        unfold get_session at hget
        exact Option.map_eq_none'.mp hget
      have h2 := List.find?_eq_none.mp hfind (sid, st) hst
      simp at h2
    | some st0 =>
      have hclose : close_session m sid =
          { m with sessions := m.sessions.filter (fun p => p.1 != sid) } := by
        unfold close_session; rw [hget]
      rw [hclose]
      constructor
      · intro hmem
        obtain ⟨st, hst, _⟩ := (active_keys_iff _ sid).mp hmem
        have h2 := (List.mem_filter.mp hst).2
        simp at h2
      · unfold get_session
        apply Option.map_eq_none'.mpr
        apply List.find?_eq_none.mpr
        intro x hx hbeq
        have h2 := (List.mem_filter.mp hx).2
        exact absurd (beq_iff_eq.mp hbeq) (bne_iff_ne.mp h2)

/-- Witness for C8: a concrete successful creation is listed as
active under the returned id, and closing a (possibly absent) id
leaves it unlisted and unfindable. -/
theorem create_close_list_active_membership_witness :
    ((create_session emptyManager okEnv).1 = some "session_1_7") ∧
    "session_1_7" ∈
      (get_active_sessions (create_session emptyManager okEnv).2).map Prod.fst ∧
    ("x" ∉ (get_active_sessions (close_session emptyManager "x")).map Prod.fst ∧
      get_session (close_session emptyManager "x") "x" = none) :=
  ⟨by decide,
   create_close_list_active_membership.1 emptyManager okEnv "session_1_7" (by decide),
   create_close_list_active_membership.2 emptyManager "x"⟩
